/-
Verification of the ELM estimator (`src/elm.py`, class `ELM`).

Shallow embedding conventions:
* numpy 2-D arrays are `Mat := List (List ℚ)` (numpy arrays are rectangular by
  construction; rectangularity appears as a hypothesis where a shape matters);
  1-D arrays are `List ℚ` (or `List ℤ` for the integer label vector `y`).
* Floating point numbers are modelled as exact rationals.  The transcendental
  `np.exp` and the numerical `np.linalg.pinv` are abstracted as parameters of a
  `NumEnv` record; theorems quantify over them (stating only what the numpy
  contract guarantees: `pinv` of an (m, n) array is an (n, m) array,
  `np.random.uniform(-1., 1., ...)` draws lie in [-1, 1]).
* `np.random` is a process-wide generator.  `fit` receives the prior generator
  state `g` (whatever external seeding established) and `entropy`, the fresh
  OS entropy consumed by the argumentless `np.random.seed()` call on line 100
  of the source.  The subsequent `np.random.uniform` draw is `env.draw` applied
  to the seed in effect.
* Fallible numpy operations return `Except NPErr`: `np.dot` raises ValueError
  on non-aligned shapes (modelled `.dimMismatch`), Python `max([])` raises
  ValueError (`.emptyMax`), attribute access on a never-assigned field raises
  AttributeError (`.attributeError`, the NotFittedError-equivalent),
  `np.argmax` raises on an empty reduction axis (`.emptyArgmax`) or on a
  missing axis (`.axisError`).
-/
import Mathlib

namespace ElmSpec

/-- A numpy 2-D float array: list of rows of rationals. -/
abbrev Mat := List (List ℚ)

/-- Errors surfaced by the Python/numpy operations used in `elm.py`. -/
inductive NPErr
  /-- Python `max([])`: ValueError. -/
  | emptyMax
  /-- `np.dot` with non-aligned shapes: ValueError. -/
  | dimMismatch
  /-- access to a never-assigned instance attribute: AttributeError. -/
  | attributeError
  /-- rank of stored `beta` inconsistent with `out_num` (unreachable from `fit`). -/
  | rankMismatch
  /-- `np.argmax` over an empty axis: ValueError. -/
  | emptyArgmax
  /-- `np.argmax(v, 1)` on a 1-D array: axis out of bounds (unreachable from `fit`). -/
  | axisError
deriving DecidableEq

/-- Number of columns of a (rectangular) array, as numpy records it:
the length of the first row. -/
def cols (M : Mat) : ℕ := (M.headD []).length

/-- Dot product of two equal-length vectors. -/
def dot (u v : List ℚ) : ℚ := (List.zipWith (· * ·) u v).sum

/-- numpy transpose `.T` of a rectangular array. -/
def transpose (M : Mat) : Mat :=
  (List.range (cols M)).map fun j => M.map fun r => r.getD j 0

/-- Embeds `np.dot` on two 2-D arrays; raises ValueError when the inner
dimensions are not aligned. -/
def matMul (A B : Mat) : Except NPErr Mat :=
  if ∀ r ∈ A, r.length = B.length then
    .ok (A.map fun r => (transpose B).map (dot r))
  else .error .dimMismatch

/-- Embeds `np.dot` on a 2-D array and a 1-D array. -/
def matVec (A : Mat) (v : List ℚ) : Except NPErr (List ℚ) :=
  if ∀ r ∈ A, r.length = v.length then
    .ok (A.map fun r => dot r v)
  else .error .dimMismatch

/-- Embeds `ELM.__add_bias`: `np.c_[X, np.ones(X.shape[0])]` appends a constant 1
column to every row, building a new array. -/
def addBias (X : Mat) : Mat := X.map fun r => r ++ [(1 : ℚ)]

/-- Python `range(a, b)` over integers. -/
def intRange (a b : ℤ) : List ℤ :=
  List.map (fun k : ℕ => a + (k : ℤ)) (List.range (b - a).toNat)

/-- Embeds `ELM.__ltov`: `[-1 if i != label else 1 for i in range(1, n + 1)]`. -/
def ltov (n label : ℤ) : List ℤ :=
  (intRange 1 (n + 1)).map fun i => if i ≠ label then -1 else 1

/-- Python `max` over a list of integers (raising on `[]` is handled at the
call site in `fit`). -/
def maxI : List ℤ → ℤ
  | [] => 0
  | x :: xs => xs.foldl max x

/-- Embeds `np.sign` on one scalar. -/
def qsign (x : ℚ) : ℚ := if 0 < x then 1 else if x < 0 then -1 else 0

/-- Embeds `np.argmax` along one row: index of the first occurrence of the maximum. -/
def argmaxIdx : List ℚ → ℕ
  | [] => 0
  | x :: xs => if ∀ z ∈ xs, z ≤ x then 0 else argmaxIdx xs + 1

/-- The numerical environment abstracted away from the source: `np.exp`,
`np.linalg.pinv`, and the uniform draws of `np.random.uniform(-1., 1., ...)`
(`draw seed i j` is the entry at row `i`, column `j` drawn with the generator
seeded by `seed`). -/
structure NumEnv where
  qexp : ℚ → ℚ
  pinv : Mat → Mat
  draw : ℕ → ℕ → ℕ → ℚ

/-- Embeds `ELM.__sigmoid` on one scalar: `1 / (1 + np.exp(-self.a * x))`. -/
def sigmoidQ (env : NumEnv) (a x : ℚ) : ℚ := 1 / (1 + env.qexp (-(a * x)))

/-- Embeds `ELM.__sigmoid` applied elementwise to a 2-D array. -/
def matSigmoid (env : NumEnv) (a : ℚ) (M : Mat) : Mat :=
  M.map fun r => r.map (sigmoidQ env a)

/-- Embeds `np.random.uniform(-1., 1., (r, c))`: an (r, c) array of fresh draws. -/
def npUniform (d : ℕ → ℕ → ℚ) (r c : ℕ) : Mat :=
  (List.range r).map fun i => (List.range c).map fun j => d i j

/-- The `ELM` estimator instance: `hid_num` and `a` are set by `__init__`;
`out_num`, `W` and `beta` are absent (`none`) until `fit` assigns them. -/
structure ELMState where
  hid_num : ℕ
  a : ℚ
  out_num : Option ℤ
  W : Option Mat
  beta : Option (List ℚ ⊕ Mat)
deriving DecidableEq

/-- Embeds `ELM.__init__(hid_num, a)`: no `W` / `beta` / `out_num` yet. -/
def initELM (hid_num : ℕ) (a : ℚ) : ELMState :=
  ⟨hid_num, a, none, none, none⟩

/-- Lines 91–94 of `fit`: the regression target.  `y` is used unmodified
(`Sum.inl`, a 1-D array) when `out_num == 1`, and replaced by the
`__ltov`-encoded 2-D array (`Sum.inr`) whenever `out_num != 1`. -/
def fitTarget (o : ℤ) (y : List ℤ) : List ℚ ⊕ Mat :=
  if o ≠ 1 then .inr (y.map fun l : ℤ => (ltov o l).map fun z : ℤ => (z : ℚ))
  else .inl (y.map fun z : ℤ => (z : ℚ))

/-- Embeds `np.dot(_H.T, y)` where `y` may be the 1-D raw labels or the 2-D encoded
target (and likewise `np.dot(_H.T, self.beta)` in `predict`): numpy's `dot`
is rank-polymorphic in its second argument. -/
def dotTB (A : Mat) : List ℚ ⊕ Mat → Except NPErr (List ℚ ⊕ Mat)
  | .inl v => (matVec A v).map .inl
  | .inr M => (matMul A M).map .inr

/-- Embeds `ELM.fit(X, y)` (lines 82–109).  `g` is the prior state of the process-wide
generator (ignored: line 100 executes `np.random.seed()` with no argument,
re-seeding from fresh OS `entropy`).  On success the returned state has
`out_num`, `W`, `beta` assigned; on a numpy/Python error the exception
propagates and no fitted state results. -/
def fit (env : NumEnv) (s : ELMState) (g entropy : ℕ) (X : Mat) (y : List ℤ) :
    Except NPErr ELMState :=
  if y = [] then .error .emptyMax
  else
    -- self.out_num = max(y)
    let o := maxI y
    -- if self.out_num != 1: y = np.array([self.__ltov(self.out_num, _y) for _y in y])
    let target := fitTarget o y
    -- X = self.__add_bias(X)
    let Xb := addBias X
    -- np.random.seed(); self.W = np.random.uniform(-1., 1., (self.hid_num, X.shape[1]))
    let W := npUniform (env.draw entropy) s.hid_num (cols Xb)
    -- _H = np.linalg.pinv(self.__sigmoid(np.dot(self.W, X.T)))
    match matMul W (transpose Xb) with
    | .error e => .error e
    | .ok H0 =>
      -- self.beta = np.dot(_H.T, y)
      match dotTB (transpose (env.pinv (matSigmoid env s.a H0))) target with
      | .error e => .error e
      | .ok b => .ok { s with out_num := some o, W := some W, beta := some b }

/-- Embeds `ELM.predict(X)` (lines 111–128).  Attribute accesses happen in source
order: `self.W` (line 125), then `self.beta` (line 126), then `self.out_num`
(line 128); a dimension error in the first `np.dot` propagates before
`self.beta` is ever read. -/
def predict (env : NumEnv) (s : ELMState) (X : Mat) : Except NPErr (List ℚ) :=
  match s.W with
  | none => .error .attributeError
  | some W =>
    -- _H = self.__sigmoid(np.dot(self.W, self.__add_bias(X).T))
    match matMul W (transpose (addBias X)) with
    | .error e => .error e
    | .ok H0 =>
      let H := matSigmoid env s.a H0
      match s.beta with
      | none => .error .attributeError
      | some b =>
        -- y = np.dot(_H.T, self.beta)
        match dotTB (transpose H) b with
        | .error e => .error e
        | .ok scores =>
          match s.out_num with
          | none => .error .attributeError
          | some o =>
            if o = 1 then
              -- return np.sign(y)
              match scores with
              | .inl v => .ok (v.map qsign)
              | .inr _ => .error .rankMismatch
            else
              -- return np.argmax(y, 1) + np.ones(y.shape[0])
              match scores with
              | .inl _ => .error .axisError
              | .inr M =>
                if ∀ row ∈ M, row ≠ [] then
                  .ok (M.map fun row => (argmaxIdx row : ℚ) + 1)
                else .error .emptyArgmax

/-- Row count of the second operand of `np.dot(_H.T, y)`, whichever rank the
target array has (proof infrastructure). -/
def targetRows : List ℚ ⊕ Mat → ℕ
  | .inl v => v.length
  | .inr M => M.length

/-- The fresh arrays allocated while building the regression target: the
multiclass branch allocates a new `np.array` for the encoded target, the
binary branch allocates nothing (the local name `y` keeps referring to the
caller's array). -/
def targetAlloc : List ℚ ⊕ Mat → List Mat
  | .inl _ => []
  | .inr M => [M]

/-- Heap model of `ELM.fit` for the frame property: the caller's arrays live
in heaps `hX` (float matrices) and `hY` (label vectors) at indices `xi`,
`yi`.  Every numpy operation inside `fit` (`np.array` on the encoded labels,
`np.c_` in `__add_bias`, `np.random.uniform`, `np.dot`, `np.exp`,
`np.linalg.pinv`) constructs a fresh array — the locals `X` and `y` are only
rebound, never written through — so the heap is extended with the fresh
allocations and no existing cell is modified. -/
def fitH (env : NumEnv) (s : ELMState) (g entropy : ℕ)
    (hX : List Mat) (hY : List (List ℤ)) (xi yi : ℕ) :
    Except NPErr (List Mat × List (List ℤ) × ELMState) :=
  let X := hX.getD xi []
  let y := hY.getD yi []
  (fit env s g entropy X y).map fun s₂ =>
    (hX ++ targetAlloc (fitTarget (maxI y) y) ++ [addBias X], hY, s₂)

/-- Concrete numerical environment used to instantiate witnesses: a constant
`exp`, `pinv` realised as plain transposition (which satisfies the
shape contract), and all-zero uniform draws. -/
def env0 : NumEnv := ⟨fun _ => 1, transpose, fun _ _ _ => 0⟩

/-- Concrete numerical environment whose uniform draws depend on the seed of
the generator: entry value = seed.  Used to exhibit entropy-dependence. -/
def envSeed : NumEnv := ⟨fun _ => 1, transpose, fun seed _ _ => (seed : ℚ)⟩

/-- The state obtained by fitting `ELM(1, 1)` on `X = [[0]]`, `y = [1]` with
all-zero draws and `exp ≡ 1`. -/
def fitted0 : ELMState := ⟨1, 1, some 1, some [[0, 0]], some (.inl [1/2])⟩

section Lemmas

theorem transpose_length (M : Mat) : (transpose M).length = cols M := by
  simp [transpose]

theorem mem_transpose_length {M : Mat} {r : List ℚ} (h : r ∈ transpose M) :
    r.length = M.length := by
  simp only [transpose, List.mem_map] at h
  obtain ⟨j, _, rfl⟩ := h
  simp

theorem cols_transpose (M : Mat) (h : 1 ≤ cols M) : cols (transpose M) = M.length := by
  obtain ⟨m, hm⟩ : ∃ m, cols M = m + 1 := ⟨cols M - 1, by omega⟩
  unfold transpose cols at *
  rw [hm, List.range_succ_eq_map]
  simp

theorem addBias_length (X : Mat) : (addBias X).length = X.length := by
  simp [addBias]

theorem cols_addBias (X : Mat) (h : X ≠ []) : cols (addBias X) = cols X + 1 := by
  obtain ⟨x, X', rfl⟩ := List.exists_cons_of_ne_nil h
  simp [addBias, cols]

theorem npUniform_length (d : ℕ → ℕ → ℚ) (r c : ℕ) : (npUniform d r c).length = r := by
  simp [npUniform]

theorem npUniform_row_length (d : ℕ → ℕ → ℚ) {r c : ℕ} {row : List ℚ}
    (h : row ∈ npUniform d r c) : row.length = c := by
  simp only [npUniform, List.mem_map] at h
  obtain ⟨i, _, rfl⟩ := h
  simp

theorem npUniform_entry (d : ℕ → ℕ → ℚ) {r c : ℕ} {row : List ℚ} {x : ℚ}
    (hrow : row ∈ npUniform d r c) (hx : x ∈ row) : ∃ i j, x = d i j := by
  simp only [npUniform, List.mem_map] at hrow
  obtain ⟨i, _, rfl⟩ := hrow
  simp only [List.mem_map] at hx
  obtain ⟨j, _, rfl⟩ := hx
  exact ⟨i, j, rfl⟩

theorem matMul_ok_elim {A B C : Mat} (h : matMul A B = .ok C) :
    (∀ r ∈ A, r.length = B.length) ∧ C = A.map fun r => (transpose B).map (dot r) := by
  unfold matMul at h
  split at h
  · rename_i hall
    injection h with h2
    exact ⟨hall, h2.symm⟩
  · exact absurd h (by simp)

theorem matMul_of_aligned {A B : Mat} (h : ∀ r ∈ A, r.length = B.length) :
    matMul A B = .ok (A.map fun r => (transpose B).map (dot r)) := by
  unfold matMul
  exact if_pos h

theorem matMul_misaligned {A B : Mat} {r₀ : List ℚ} (h₀ : r₀ ∈ A)
    (hne : r₀.length ≠ B.length) : matMul A B = .error .dimMismatch := by
  unfold matMul
  exact if_neg fun hall => hne (hall r₀ h₀)

theorem matVec_misaligned {A : Mat} {v : List ℚ} {r₀ : List ℚ} (h₀ : r₀ ∈ A)
    (hne : r₀.length ≠ v.length) : matVec A v = .error .dimMismatch := by
  unfold matVec
  exact if_neg fun hall => hne (hall r₀ h₀)

theorem matSigmoid_length (env : NumEnv) (a : ℚ) (M : Mat) :
    (matSigmoid env a M).length = M.length := by
  simp [matSigmoid]

theorem cols_matSigmoid (env : NumEnv) (a : ℚ) (M : Mat) :
    cols (matSigmoid env a M) = cols M := by
  cases M <;> simp [matSigmoid, cols]

theorem dotTB_ok_inl {A : Mat} {b : List ℚ ⊕ Mat} {v : List ℚ}
    (h : dotTB A b = .ok (.inl v)) : ∃ bv, b = .inl bv ∧ matVec A bv = .ok v := by
  cases b with
  | inl bv =>
    cases hm : matVec A bv with
    | error e => simp [dotTB, hm, Except.map] at h
    | ok w =>
      simp only [dotTB, hm, Except.map, Except.ok.injEq, Sum.inl.injEq] at h
      exact ⟨bv, rfl, by rw [hm]; simp_all⟩
  | inr bm =>
    exfalso
    cases hm : matMul A bm <;> simp [dotTB, hm, Except.map] at h

theorem dotTB_ok_inr {A : Mat} {b : List ℚ ⊕ Mat} {M : Mat}
    (h : dotTB A b = .ok (.inr M)) : ∃ bm, b = .inr bm ∧ matMul A bm = .ok M := by
  cases b with
  | inl bv =>
    exfalso
    cases hm : matVec A bv <;> simp [dotTB, hm, Except.map] at h
  | inr bm =>
    cases hm : matMul A bm with
    | error e => simp [dotTB, hm, Except.map] at h
    | ok w =>
      simp only [dotTB, hm, Except.map, Except.ok.injEq, Sum.inr.injEq] at h
      exact ⟨bm, rfl, by rw [hm]; simp_all⟩

theorem qsign_cases (x : ℚ) : qsign x = -1 ∨ qsign x = 0 ∨ qsign x = 1 := by
  unfold qsign
  split_ifs <;> simp

theorem qsign_eq_zero_iff (x : ℚ) : qsign x = 0 ↔ x = 0 := by
  unfold qsign
  split_ifs with h1 h2
  · constructor
    · intro h; exact absurd h one_ne_zero
    · intro h; subst h; exact absurd h1 (lt_irrefl 0)
  · constructor
    · intro h; norm_num at h
    · intro h; subst h; exact absurd h2 (lt_irrefl 0)
  · constructor
    · intro _; linarith
    · intro _; rfl

theorem argmaxIdx_lt_length {l : List ℚ} (h : l ≠ []) : argmaxIdx l < l.length := by
  induction l with
  | nil => exact absurd rfl h
  | cons x xs ih =>
    unfold argmaxIdx
    split
    · simp
    · have hxs : xs ≠ [] := by
        rintro rfl
        simp_all [argmaxIdx]
      simpa using Nat.succ_lt_succ (ih hxs)

theorem fitTarget_rows (o : ℤ) (y : List ℤ) : targetRows (fitTarget o y) = y.length := by
  unfold fitTarget
  split_ifs <;> simp [targetRows]

theorem dotTB_misaligned {T : Mat} {t : List ℚ} (ht : t ∈ T) {b : List ℚ ⊕ Mat}
    (hne : t.length ≠ targetRows b) : dotTB T b = .error .dimMismatch := by
  cases b with
  | inl v =>
    simp [dotTB, matVec_misaligned ht (by simpa [targetRows] using hne), Except.map]
  | inr M =>
    simp [dotTB, matMul_misaligned ht (by simpa [targetRows] using hne), Except.map]

theorem fit_ok_fields {env : NumEnv} {s : ELMState} {g e : ℕ} {X : Mat} {y : List ℤ}
    {m : ELMState} (h : fit env s g e X y = .ok m) :
    m.out_num = some (maxI y) ∧
    m.W = some (npUniform (env.draw e) s.hid_num (cols (addBias X))) ∧
    m.hid_num = s.hid_num ∧ m.a = s.a ∧
    ∃ b, dotTB (transpose (env.pinv (matSigmoid env s.a
        ((npUniform (env.draw e) s.hid_num (cols (addBias X))).map fun r =>
          (transpose (transpose (addBias X))).map (dot r)))))
        (fitTarget (maxI y) y) = .ok b ∧ m.beta = some b := by
  unfold fit at h
  split at h
  · exact absurd h (by simp)
  · dsimp only at h
    split at h
    · exact absurd h (by simp)
    · rename_i H0 hmul
      split at h
      · exact absurd h (by simp)
      · rename_i b hdot
        injection h with h2
        subst h2
        obtain ⟨_, hC⟩ := matMul_ok_elim hmul
        subst hC
        exact ⟨rfl, rfl, rfl, rfl, b, hdot, rfl⟩

end Lemmas

/-- C1: for every class count `n ≥ 1` and label in `[1, n]`, `__ltov` returns
a list of length exactly `n` whose entry at position `label - 1` is `+1` and
whose every other entry is `-1`. -/
theorem c1_ltov_onehot (n label : ℤ) (hn : 1 ≤ n) (hl1 : 1 ≤ label) (hl2 : label ≤ n) :
    ((ltov n label).length : ℤ) = n ∧
    ∀ (j : ℕ) (hj : j < (ltov n label).length),
      (ltov n label)[j] = if (j : ℤ) = label - 1 then 1 else -1 := by
  constructor
  · simp only [ltov, intRange, List.length_map, List.length_range]
    omega
  · intro j hj
    have hj' : j < (intRange 1 (n + 1)).length := by simpa [ltov] using hj
    have h1 : (ltov n label)[j] = if (intRange 1 (n + 1))[j] ≠ label then -1 else 1 := by
      simp [ltov]
    have h2 : (intRange 1 (n + 1))[j] = 1 + (j : ℤ) := by
      simp [intRange]
    rw [h1, h2]
    split_ifs <;> omega

/-- Witness for C1 at `n = 3`, `label = 2`. -/
theorem c1_witness :
    ((ltov 3 2).length : ℤ) = 3 ∧
    ∀ (j : ℕ) (hj : j < (ltov 3 2).length),
      (ltov 3 2)[j] = if (j : ℤ) = 2 - 1 then 1 else -1 :=
  c1_ltov_onehot 3 2 (by decide) (by decide) (by decide)

/-- C2 fails as stated: its parenthetical asserts that for every `y` with
`max(y)` not exceeding 1 the target is `y` itself, but the code encodes
whenever `max(y) != 1`.  For `y = [-1]` (a legitimate all-negative ±1 binary
label vector), `max(y) = -1 ≤ 1`, yet the target is the encoded 2-D array
`[[]]` (each `__ltov(-1, ·)` is the empty list), not `y` unmodified. -/
theorem c2_counterexample :
    maxI [(-1 : ℤ)] ≤ 1 ∧
    fitTarget (maxI [(-1 : ℤ)]) [(-1 : ℤ)] ≠
      Sum.inl (List.map (fun z : ℤ => (z : ℚ)) [(-1 : ℤ)]) := by
  constructor
  · decide
  · unfold fitTarget maxI
    rw [if_pos (by decide)]
    exact fun hin => Sum.noConfusion hin

/-- C2 (amended): `fit` sets `out_num` to `max(y)` and uses `y` unmodified as
the regression target exactly when `max(y)` equals 1; whenever `max(y) ≠ 1`
(including `max(y) < 1`) it applies the one-hot-bipolar encoding to every
label, producing vectors of length `max(max(y), 0)` (empty when
`max(y) ≤ 0`). -/
theorem c2_fit_target (env : NumEnv) (s : ELMState) (g e : ℕ) (X : Mat) (y : List ℤ)
    (s₂ : ELMState) (hfit : fit env s g e X y = .ok s₂) :
    s₂.out_num = some (maxI y) ∧
    (maxI y = 1 ↔ fitTarget (maxI y) y = .inl (List.map (fun z : ℤ => (z : ℚ)) y)) ∧
    (maxI y ≠ 1 →
      fitTarget (maxI y) y =
        .inr (y.map fun l : ℤ => (ltov (maxI y) l).map fun z : ℤ => (z : ℚ))) := by
  refine ⟨(fit_ok_fields hfit).1, ⟨?_, ?_⟩, ?_⟩
  · intro h1
    unfold fitTarget
    rw [if_neg (by simp [h1])]
  · intro hin
    by_contra hne
    unfold fitTarget at hin
    rw [if_pos hne] at hin
    exact Sum.noConfusion hin
  · intro hne
    unfold fitTarget
    rw [if_pos hne]

/-- Witness for C2 (amended) on a concrete successful fit. -/
theorem c2_witness :
    fitted0.out_num = some (maxI [1]) ∧
    (maxI [1] = 1 ↔ fitTarget (maxI [1]) [1] = .inl (List.map (fun z : ℤ => (z : ℚ)) [1])) ∧
    (maxI [1] ≠ 1 →
      fitTarget (maxI [1]) [1] =
        .inr (List.map (fun l : ℤ => (ltov (maxI [1]) l).map fun z : ℤ => (z : ℚ)) [1])) :=
  c2_fit_target env0 (initELM 1 1) 0 0 [[0]] [1] fitted0 (by
    norm_num [fit, env0, initELM, fitted0, fitTarget, maxI, addBias, cols, npUniform,
      matMul, matVec, dotTB, transpose, matSigmoid, sigmoidQ, dot, ltov, intRange,
      List.range_succ, List.forall_mem_cons, Except.map])

/-- C4 fails as stated: `fit` executes `np.random.seed()` (no argument) on
line 100, re-seeding the process-wide generator from fresh OS entropy, so
fixing the random source identically before each of two `fit` calls does not
make them reproducible.  Here both calls start from the identical prior
generator state 7, but the internal re-seed consumes entropy 0 in the first
call and entropy 1 in the second, and the stored `W` differ bit for bit. -/
theorem c4_counterexample :
    (fit envSeed (initELM 1 1) 7 0 [[0]] [1]).toOption.map ELMState.W ≠
      (fit envSeed (initELM 1 1) 7 1 [[0]] [1]).toOption.map ELMState.W := by
  have h0 : (fit envSeed (initELM 1 1) 7 0 [[0]] [1]).toOption.map ELMState.W =
      some (some [[0, 0]]) := by
    norm_num [fit, envSeed, initELM, fitTarget, maxI, addBias, cols, npUniform,
      matMul, matVec, dotTB, transpose, matSigmoid, sigmoidQ, dot, ltov, intRange,
      List.range_succ, List.forall_mem_cons, Except.map, Except.toOption]
  have h1 : (fit envSeed (initELM 1 1) 7 1 [[0]] [1]).toOption.map ELMState.W =
      some (some [[1, 1]]) := by
    norm_num [fit, envSeed, initELM, fitTarget, maxI, addBias, cols, npUniform,
      matMul, matVec, dotTB, transpose, matSigmoid, sigmoidQ, dot, ltov, intRange,
      List.range_succ, List.forall_mem_cons, Except.map, Except.toOption]
  rw [h0, h1]
  simp

/-- C4 (amended): determinism holds at the level of the random draws — two
`fit` calls on identical `(X, y)` whose internal argumentless
`np.random.seed()` gathers the same entropy (hence identical uniform draws)
produce bit-for-bit identical `W` and `beta`, regardless of the prior
generator state, and subsequent `predict` calls on the same input produce
identical outputs.  External seeding alone does not suffice (see the
counterexample). -/
theorem c4_same_entropy_deterministic (env : NumEnv) (s : ELMState) (g₁ g₂ e : ℕ)
    (X : Mat) (y : List ℤ) (m₁ m₂ : ELMState)
    (h₁ : fit env s g₁ e X y = .ok m₁) (h₂ : fit env s g₂ e X y = .ok m₂) :
    m₁.W = m₂.W ∧ m₁.beta = m₂.beta ∧ ∀ X₂, predict env m₁ X₂ = predict env m₂ X₂ := by
  have hgg : fit env s g₁ e X y = fit env s g₂ e X y := rfl
  rw [hgg, h₂] at h₁
  injection h₁ with h₃
  subst h₃
  exact ⟨rfl, rfl, fun _ => rfl⟩

/-- Witness for C4 (amended): same entropy, different prior generator states. -/
theorem c4_witness :
    fitted0.W = fitted0.W ∧ fitted0.beta = fitted0.beta ∧
    ∀ X₂, predict env0 fitted0 X₂ = predict env0 fitted0 X₂ :=
  c4_same_entropy_deterministic env0 (initELM 1 1) 0 99 0 [[0]] [1] fitted0 fitted0
    (by
      norm_num [fit, env0, initELM, fitted0, fitTarget, maxI, addBias, cols, npUniform,
        matMul, matVec, dotTB, transpose, matSigmoid, sigmoidQ, dot, ltov, intRange,
        List.range_succ, List.forall_mem_cons, Except.map])
    (by
      norm_num [fit, env0, initELM, fitted0, fitTarget, maxI, addBias, cols, npUniform,
        matMul, matVec, dotTB, transpose, matSigmoid, sigmoidQ, dot, ltov, intRange,
        List.range_succ, List.forall_mem_cons, Except.map])

/-- C5: calling `predict` before any `fit` fails (accessing the
never-assigned `self.W` raises AttributeError, the NotFittedError-equivalent)
rather than returning a result. -/
theorem c5_predict_unfitted (env : NumEnv) (hid : ℕ) (a : ℚ) (X : Mat) :
    predict env (initELM hid a) X = .error .attributeError := rfl

/-- C9: two `predict` calls with the same `X` on the same (unmutated) instance
return identical outputs — `predict` reads `W`, `beta`, `out_num` and writes
nothing. -/
theorem c9_predict_idempotent (env : NumEnv) (s : ELMState) (X : Mat)
    (r₁ r₂ : Except NPErr (List ℚ))
    (h₁ : predict env s X = r₁) (h₂ : predict env s X = r₂) : r₁ = r₂ :=
  h₁.symm.trans h₂

/-- Witness for C9 on a concrete instance and input. -/
theorem c9_witness :
    (Except.error NPErr.attributeError : Except NPErr (List ℚ)) =
      Except.error NPErr.attributeError :=
  c9_predict_idempotent env0 (initELM 1 1) [[0]]
    (Except.error NPErr.attributeError) (Except.error NPErr.attributeError) rfl rfl

/-- C6: for every `X` and nonempty `y` whose row counts differ, `fit` fails
with the ValueError numpy raises for the non-aligned `np.dot(_H.T, y)` (the
DimensionError-equivalent) and returns no fitted model.  `hpinv` is the numpy
shape contract of `np.linalg.pinv` (the pseudo-inverse of an (m, n) array is
an (n, m) array); `hid_num ≥ 1` per the spec's configuration constraint. -/
theorem c6_fit_row_mismatch (env : NumEnv) (s : ELMState) (g e : ℕ)
    (X : Mat) (y : List ℤ) (hX : X ≠ []) (hy : y ≠ []) (hhid : 1 ≤ s.hid_num)
    (hpinv : ∀ M : Mat, (env.pinv M).length = cols M ∧
      ∀ r ∈ env.pinv M, r.length = M.length)
    (hne : X.length ≠ y.length) :
    fit env s g e X y = .error .dimMismatch := by
  have hXb : (addBias X).length = X.length := addBias_length X
  have hcXb : 1 ≤ cols (addBias X) := by
    rw [cols_addBias X hX]
    omega
  have hWrow : ∀ r ∈ npUniform (env.draw e) s.hid_num (cols (addBias X)),
      r.length = (transpose (addBias X)).length := by
    intro r hr
    rw [transpose_length]
    exact npUniform_row_length _ hr
  have hmul := matMul_of_aligned hWrow
  have hWlen : (npUniform (env.draw e) s.hid_num (cols (addBias X))).length = s.hid_num :=
    npUniform_length _ _ _
  have hWne : npUniform (env.draw e) s.hid_num (cols (addBias X)) ≠ [] := by
    intro h0
    rw [h0] at hWlen
    simp at hWlen
    omega
  obtain ⟨w, W', hW'⟩ := List.exists_cons_of_ne_nil hWne
  have hColsH0 :
      cols ((npUniform (env.draw e) s.hid_num (cols (addBias X))).map fun r =>
        (transpose (transpose (addBias X))).map (dot r)) = X.length := by
    rw [hW']
    simp only [List.map_cons, cols, List.headD_cons, List.length_map]
    rw [transpose_length, cols_transpose _ hcXb, hXb]
  have hH0len :
      ((npUniform (env.draw e) s.hid_num (cols (addBias X))).map fun r =>
        (transpose (transpose (addBias X))).map (dot r)).length = s.hid_num := by
    rw [List.length_map, hWlen]
  have hHlen :
      (matSigmoid env s.a ((npUniform (env.draw e) s.hid_num (cols (addBias X))).map fun r =>
        (transpose (transpose (addBias X))).map (dot r))).length = s.hid_num := by
    rw [matSigmoid_length, hH0len]
  have hColsH :
      cols (matSigmoid env s.a ((npUniform (env.draw e) s.hid_num (cols (addBias X))).map fun r =>
        (transpose (transpose (addBias X))).map (dot r))) = X.length := by
    rw [cols_matSigmoid, hColsH0]
  have hpHlen :
      (env.pinv (matSigmoid env s.a ((npUniform (env.draw e) s.hid_num (cols (addBias X))).map
        fun r => (transpose (transpose (addBias X))).map (dot r)))).length = X.length := by
    rw [(hpinv _).1, hColsH]
  have hpHrow : ∀ r ∈ env.pinv (matSigmoid env s.a
      ((npUniform (env.draw e) s.hid_num (cols (addBias X))).map fun r =>
        (transpose (transpose (addBias X))).map (dot r))),
      r.length = s.hid_num := by
    intro r hr
    rw [(hpinv _).2 r hr, hHlen]
  have hpHne : env.pinv (matSigmoid env s.a
      ((npUniform (env.draw e) s.hid_num (cols (addBias X))).map fun r =>
        (transpose (transpose (addBias X))).map (dot r))) ≠ [] := by
    intro h0
    apply hX
    rw [h0] at hpHlen
    simp at hpHlen
    exact List.length_eq_zero.mp hpHlen.symm
  have hColspH : cols (env.pinv (matSigmoid env s.a
      ((npUniform (env.draw e) s.hid_num (cols (addBias X))).map fun r =>
        (transpose (transpose (addBias X))).map (dot r)))) = s.hid_num := by
    obtain ⟨p, pH', hp⟩ := List.exists_cons_of_ne_nil hpHne
    have hmem := hpHrow p (by rw [hp]; exact List.mem_cons_self _ _)
    rw [hp] at *
    simpa [cols] using hmem
  have hTlen : (transpose (env.pinv (matSigmoid env s.a
      ((npUniform (env.draw e) s.hid_num (cols (addBias X))).map fun r =>
        (transpose (transpose (addBias X))).map (dot r))))).length = s.hid_num := by
    rw [transpose_length, hColspH]
  have hTne : transpose (env.pinv (matSigmoid env s.a
      ((npUniform (env.draw e) s.hid_num (cols (addBias X))).map fun r =>
        (transpose (transpose (addBias X))).map (dot r)))) ≠ [] := by
    intro h0
    rw [h0] at hTlen
    simp at hTlen
    omega
  obtain ⟨t, T', hT⟩ := List.exists_cons_of_ne_nil hTne
  have htmem : t ∈ transpose (env.pinv (matSigmoid env s.a
      ((npUniform (env.draw e) s.hid_num (cols (addBias X))).map fun r =>
        (transpose (transpose (addBias X))).map (dot r)))) := by
    rw [hT]
    exact List.mem_cons_self _ _
  have htlen : t.length = X.length := by
    rw [mem_transpose_length htmem, hpHlen]
  have herr : dotTB (transpose (env.pinv (matSigmoid env s.a
      ((npUniform (env.draw e) s.hid_num (cols (addBias X))).map fun r =>
        (transpose (transpose (addBias X))).map (dot r)))))
      (fitTarget (maxI y) y) = .error .dimMismatch := by
    apply dotTB_misaligned htmem
    rw [fitTarget_rows, htlen]
    exact hne
  unfold fit
  rw [if_neg hy]
  simp only [hmul, herr]

/-- Witness for C6: two samples, one label. -/
theorem c6_witness : fit env0 (initELM 1 1) 0 0 [[0], [0]] [1] = .error .dimMismatch :=
  c6_fit_row_mismatch env0 (initELM 1 1) 0 0 [[0], [0]] [1]
    (by simp) (by simp) (by norm_num [initELM])
    (fun M => ⟨transpose_length M, fun r hr => mem_transpose_length hr⟩)
    (by simp)

/-- C7: for every instance holding a weight matrix `W` of shape
`(hid_num, D+1)` (as stored by a fit on D-column data), `predict` on an input
whose column count differs from `D` fails with the ValueError numpy raises
for the non-aligned `np.dot(self.W, X'.T)` — the DimensionError-equivalent —
before `self.beta` is ever read. -/
theorem c7_predict_col_mismatch (env : NumEnv) (s : ELMState) (W : Mat) (D : ℕ)
    (hW : s.W = some W) (hWne : W ≠ []) (hWrow : ∀ r ∈ W, r.length = D + 1)
    (X : Mat) (hXne : X ≠ []) (hcols : cols X ≠ D) :
    predict env s X = .error .dimMismatch := by
  have hlen : (transpose (addBias X)).length = cols X + 1 := by
    rw [transpose_length, cols_addBias X hXne]
  obtain ⟨w, W', hW'⟩ := List.exists_cons_of_ne_nil hWne
  have hwmem : w ∈ W := by
    rw [hW']
    exact List.mem_cons_self _ _
  have herr : matMul W (transpose (addBias X)) = .error .dimMismatch := by
    apply matMul_misaligned hwmem
    rw [hlen]
    have := hWrow w hwmem
    omega
  simp [predict, hW, herr]

/-- Witness for C7: fitted with D = 1 column, queried with 2 columns. -/
theorem c7_witness : predict env0 fitted0 [[0, 0]] = .error .dimMismatch :=
  c7_predict_col_mismatch env0 fitted0 [[0, 0]] 1 rfl (by simp)
    (by simp [fitted0]) [[0, 0]] (by simp) (by simp [cols])

/-- C8: after every successful `fit` on a nonempty `D`-column `X`, the stored
`W` is exactly this call's fresh uniform sample of shape `(hid_num, D+1)`;
under the numpy contract that `uniform(-1., 1.)` draws lie in `[-1, 1]`,
every entry of `W` lies in `[-1, 1]`; and the stored `W` is the same whatever
prior state (in particular whatever prior `W`) the instance carried — full
replacement, no persistence or accumulation across calls. -/
theorem c8_W_fresh (env : NumEnv) (s₁ s₂ : ELMState) (g₁ g₂ e : ℕ) (X : Mat)
    (y : List ℤ) (m₁ m₂ : ELMState) (hX : X ≠ [])
    (hhid : s₁.hid_num = s₂.hid_num)
    (hdraw : ∀ i j : ℕ, -1 ≤ env.draw e i j ∧ env.draw e i j ≤ 1)
    (h₁ : fit env s₁ g₁ e X y = .ok m₁) (h₂ : fit env s₂ g₂ e X y = .ok m₂) :
    m₁.W = some (npUniform (env.draw e) s₁.hid_num (cols X + 1)) ∧
    m₁.W = m₂.W ∧
    ∃ Wm, m₁.W = some Wm ∧ Wm.length = s₁.hid_num ∧
      (∀ r ∈ Wm, r.length = cols X + 1) ∧
      ∀ r ∈ Wm, ∀ x ∈ r, -1 ≤ x ∧ x ≤ 1 := by
  have hw₁ := (fit_ok_fields h₁).2.1
  have hw₂ := (fit_ok_fields h₂).2.1
  have hc : cols (addBias X) = cols X + 1 := cols_addBias X hX
  rw [hc] at hw₁ hw₂
  refine ⟨hw₁, ?_, ?_⟩
  · rw [hw₁, hw₂, hhid]
  · refine ⟨_, hw₁, npUniform_length _ _ _, fun r hr => npUniform_row_length _ hr, ?_⟩
    intro r hr x hx
    obtain ⟨i, j, rfl⟩ := npUniform_entry _ hr hx
    exact hdraw i j

/-- Witness for C8: the second prior state already carries a (junk) `W`,
which the re-fit fully replaces. -/
theorem c8_witness :
    fitted0.W = some (npUniform (env0.draw 0) (initELM 1 1).hid_num (cols [[0]] + 1)) ∧
    fitted0.W = fitted0.W ∧
    ∃ Wm, fitted0.W = some Wm ∧ Wm.length = (initELM 1 1).hid_num ∧
      (∀ r ∈ Wm, r.length = cols [[0]] + 1) ∧
      ∀ r ∈ Wm, ∀ x ∈ r, -1 ≤ x ∧ x ≤ 1 :=
  c8_W_fresh env0 (initELM 1 1) ⟨1, 1, some 5, some [[9]], some (.inr [[3]])⟩
    0 99 0 [[0]] [1] fitted0 fitted0 (by simp) rfl
    (fun i j => by norm_num [env0])
    (by
      norm_num [fit, env0, initELM, fitted0, fitTarget, maxI, addBias, cols, npUniform,
        matMul, matVec, dotTB, transpose, matSigmoid, sigmoidQ, dot, ltov, intRange,
        List.range_succ, List.forall_mem_cons, Except.map])
    (by
      norm_num [fit, env0, fitted0, fitTarget, maxI, addBias, cols, npUniform,
        matMul, matVec, dotTB, transpose, matSigmoid, sigmoidQ, dot, ltov, intRange,
        List.range_succ, List.forall_mem_cons, Except.map])

/-- C10: `fit` never modifies the caller's `X` and `y`: in the heap model
every operation allocates fresh arrays (bias augmentation via `np.c_` and
label encoding via `np.array` included), so after a successful `fit` every
pre-existing heap cell — in particular the caller's `X` at `xi` and `y` at
`yi` — holds exactly the value it held before the call. -/
theorem c10_fit_frame (env : NumEnv) (s : ELMState) (g e : ℕ)
    (hX : List Mat) (hY : List (List ℤ)) (xi yi : ℕ)
    (out : List Mat × List (List ℤ) × ELMState)
    (h : fitH env s g e hX hY xi yi = .ok out) :
    (∀ i, i < hX.length → out.1.getD i [] = hX.getD i []) ∧ out.2.1 = hY := by
  unfold fitH at h
  dsimp only at h
  cases hfit : fit env s g e (hX.getD xi []) (hY.getD yi []) with
  | error err => rw [hfit] at h; simp [Except.map] at h
  | ok s₂ =>
    rw [hfit] at h
    simp only [Except.map, Except.ok.injEq] at h
    subst h
    constructor
    · intro i hi
      have hi' : i < (hX ++ targetAlloc (fitTarget (maxI (hY.getD yi [])) (hY.getD yi []))).length := by
        rw [List.length_append]
        omega
      rw [List.append_assoc]  -- not needed if getD_append handles; keep simple
      rw [← List.append_assoc]
      rw [List.getD_append _ _ _ _ hi', List.getD_append _ _ _ _ hi]
    · rfl

/-- Witness for C10 on concrete one-cell heaps. -/
theorem c10_witness :
    (∀ i, i < ([[[0]]] : List Mat).length →
      (([[[0]]] : List Mat) ++ [] ++ [[[0, 1]]]).getD i [] = ([[[0]]] : List Mat).getD i []) ∧
    ([[(1 : ℤ)]] : List (List ℤ)) = [[(1 : ℤ)]] :=
  c10_fit_frame env0 (initELM 1 1) 0 0 [[[0]]] [[(1 : ℤ)]] 0 0
    ([[[0]]] ++ [] ++ [[[0, 1]]], [[(1 : ℤ)]], fitted0)
    (by
      norm_num [fitH, fit, env0, initELM, fitted0, fitTarget, targetAlloc, maxI, addBias,
        cols, npUniform, matMul, matVec, dotTB, transpose, matSigmoid, sigmoidQ, dot,
        ltov, intRange, List.range_succ, List.forall_mem_cons, Except.map])

/-- C3: for every fitted instance, `predict` decodes the score matrix
`np.dot(_H.T, beta)` as follows.  When `out_num == 1` it returns the
elementwise sign of the scores — each value is `-1`, `0` or `+1`, and `0`
exactly when the corresponding score is zero.  Otherwise it returns, for each
input row, the index of the maximum score plus one; given the fit invariant
that every row of `beta` has `out_num` entries, every such prediction lies in
`{1, ..., out_num}`. -/
theorem c3_predict_decode (env : NumEnv) (s : ELMState) (X : Mat) (o : ℤ)
    (r : List ℚ) (ho : s.out_num = some o) (hr : predict env s X = .ok r) :
    (o = 1 → ∃ W bv H₀ v, s.W = some W ∧ s.beta = some (.inl bv) ∧
      matMul W (transpose (addBias X)) = .ok H₀ ∧
      matVec (transpose (matSigmoid env s.a H₀)) bv = .ok v ∧
      r = v.map qsign ∧
      ∀ (i : ℕ) (hi : i < r.length),
        (r[i] = -1 ∨ r[i] = 0 ∨ r[i] = 1) ∧ (r[i] = 0 ↔ v.getD i 0 = 0)) ∧
    (o ≠ 1 → ∃ W bm H₀ M, s.W = some W ∧ s.beta = some (.inr bm) ∧
      matMul W (transpose (addBias X)) = .ok H₀ ∧
      matMul (transpose (matSigmoid env s.a H₀)) bm = .ok M ∧
      r = M.map (fun row => (argmaxIdx row : ℚ) + 1) ∧
      ((∀ row ∈ bm, (row.length : ℤ) = o) →
        ∀ x ∈ r, ∃ k : ℕ, x = (k : ℚ) + 1 ∧ 1 ≤ x ∧ x ≤ (o : ℚ))) := by
  unfold predict at hr
  split at hr
  · exact absurd hr (by simp)
  rename_i W hWeq
  split at hr
  · exact absurd hr (by simp)
  rename_i H₀ hmul
  dsimp only at hr
  split at hr
  · exact absurd hr (by simp)
  rename_i b hbeta
  split at hr
  · exact absurd hr (by simp)
  rename_i scores hdot
  split at hr
  · exact absurd hr (by simp)
  rename_i o' hout
  rw [ho] at hout
  injection hout with hoo
  subst hoo
  split at hr
  · -- out_num == 1: sign decoding
    rename_i h1
    split at hr
    · rename_i v
      injection hr with hrr
      subst hrr
      obtain ⟨bv, hbv, hmv⟩ := dotTB_ok_inl hdot
      subst hbv
      refine ⟨fun _ => ⟨W, bv, H₀, v, hWeq, hbeta, hmul, hmv, rfl, ?_⟩,
        fun hne => absurd h1 hne⟩
      intro i hi
      have hiv : i < v.length := by simpa using hi
      have hidx : (v.map qsign)[i] = qsign v[i] := List.getElem_map _
      constructor
      · rw [hidx]
        exact qsign_cases _
      · rw [hidx, List.getD_eq_getElem v 0 hiv]
        exact qsign_eq_zero_iff _
    · exact absurd hr (by simp)
  · -- out_num != 1: argmax decoding
    rename_i h1
    split at hr
    · exact absurd hr (by simp)
    rename_i M
    split at hr
    · rename_i hrows
      injection hr with hrr
      subst hrr
      obtain ⟨bm, hbm, hmm⟩ := dotTB_ok_inr hdot
      subst hbm
      refine ⟨fun h1e => absurd h1e h1,
        fun _ => ⟨W, bm, H₀, M, hWeq, hbeta, hmul, hmm, rfl, ?_⟩⟩
      intro hbmlen x hx
      obtain ⟨row, hrowM, rfl⟩ := List.mem_map.mp hx
      have hrne : row ≠ [] := hrows row hrowM
      have hlt : argmaxIdx row < row.length := argmaxIdx_lt_length hrne
      obtain ⟨_, hMeq⟩ := matMul_ok_elim hmm
      have hrowlen : row.length = (transpose bm).length := by
        rw [hMeq] at hrowM
        obtain ⟨r', _, rfl⟩ := List.mem_map.mp hrowM
        simp
      rw [transpose_length] at hrowlen
      have hbmne : bm ≠ [] := by
        intro h0
        rw [h0] at hrowlen
        simp [cols] at hrowlen
        exact hrne hrowlen
      obtain ⟨b₀, bm', hbm0⟩ := List.exists_cons_of_ne_nil hbmne
      have hb₀ : (b₀.length : ℤ) = o := hbmlen b₀ (by rw [hbm0]; exact List.mem_cons_self _ _)
      have hcolsbm : cols bm = b₀.length := by rw [hbm0]; simp [cols]
      rw [hcolsbm] at hrowlen
      refine ⟨argmaxIdx row, rfl,
        by have h0q : (0 : ℚ) ≤ (argmaxIdx row : ℚ) := Nat.cast_nonneg _; linarith, ?_⟩
      have hk1 : argmaxIdx row + 1 ≤ b₀.length := by omega
      have hq : ((argmaxIdx row : ℚ) + 1) ≤ (b₀.length : ℚ) := by exact_mod_cast hk1
      have hoq : ((b₀.length : ℚ)) = (o : ℚ) := by exact_mod_cast congrArg (fun z : ℤ => (z : ℚ)) hb₀
      rw [hoq] at hq
      exact hq
    · exact absurd hr (by simp)

/-- Witness for C3 on a concrete fitted binary instance. -/
theorem c3_witness :
    ((1 : ℤ) = 1 → ∃ W bv H₀ v, fitted0.W = some W ∧ fitted0.beta = some (.inl bv) ∧
      matMul W (transpose (addBias [[0]])) = .ok H₀ ∧
      matVec (transpose (matSigmoid env0 fitted0.a H₀)) bv = .ok v ∧
      ([(1 : ℚ)] : List ℚ) = v.map qsign ∧
      ∀ (i : ℕ) (hi : i < ([(1 : ℚ)] : List ℚ).length),
        (([(1 : ℚ)] : List ℚ)[i] = -1 ∨ ([(1 : ℚ)] : List ℚ)[i] = 0 ∨
          ([(1 : ℚ)] : List ℚ)[i] = 1) ∧
        (([(1 : ℚ)] : List ℚ)[i] = 0 ↔ v.getD i 0 = 0)) ∧
    ((1 : ℤ) ≠ 1 → ∃ W bm H₀ M, fitted0.W = some W ∧ fitted0.beta = some (.inr bm) ∧
      matMul W (transpose (addBias [[0]])) = .ok H₀ ∧
      matMul (transpose (matSigmoid env0 fitted0.a H₀)) bm = .ok M ∧
      ([(1 : ℚ)] : List ℚ) = M.map (fun row => (argmaxIdx row : ℚ) + 1) ∧
      ((∀ row ∈ bm, (row.length : ℤ) = (1 : ℤ)) →
        ∀ x ∈ ([(1 : ℚ)] : List ℚ), ∃ k : ℕ, x = (k : ℚ) + 1 ∧ 1 ≤ x ∧ x ≤ ((1 : ℤ) : ℚ))) :=
  c3_predict_decode env0 fitted0 [[0]] 1 [1] rfl (by
    norm_num [predict, env0, fitted0, addBias, cols, matMul, matVec, dotTB, transpose,
      matSigmoid, sigmoidQ, dot, qsign, List.range_succ, List.forall_mem_cons, Except.map])

end ElmSpec
